import Mathlib

/-!
Verification of the gcsproxy request-to-operation mapping logic.

The repository contains two revisions of the proxy in `main.go`.  Both are
embedded here:
* revision A: GET with content negotiation (`alt=media` raw bytes vs JSON
  metadata), PUT/POST full-body upload, DELETE;
* revision B: directory-listing emulation (`getDir`, `isDirectory`), the
  signed-URL redirect mode (`getFile`, `generateV4GetObjectSignedURL`) and
  the concurrent multi-bucket readiness prober (`readinessProbeHandler`).

Strings are modelled as Lean `String`s; the character-level operations of
the Go code (`strings.TrimPrefix`, `strings.Split(name, "/")`,
`prefix[len(prefix)-1:] != "/"`) are translated to operations on `.data`
(the list of characters) so that every definition is executable and
decidable on concrete inputs.
-/

/-- Storage-layer errors: `notExist` models `storage.ErrObjectNotExist`,
`other` any other backend failure with its message. -/
inductive GErr where
  | notExist
  | other (msg : String)
deriving DecidableEq, Repr

/-- The error text the backend attaches to a failure
(`storage.ErrObjectNotExist.Error()` for `notExist`). -/
def errText : GErr → String
  | GErr.notExist => "storage: object doesn't exist"
  | GErr.other m => m

/-- A minimal HTTP error response as produced by `http.Error`. -/
structure HResp where
  status : Nat
  body : String
deriving DecidableEq, Repr

/-- Embedding of `handleError` (`main.go`): `storage.ErrObjectNotExist`
maps to 404 with the error text, any other error to 500 with the error
text. -/
def handleErrorResp (e : GErr) : HResp :=
  if e = GErr.notExist then { status := 404, body := errText e }
  else { status := 500, body := errText e }

/-- One object stored in the (modelled) Storage Gateway. -/
structure StoredObject where
  bucket : String
  name : String
  data : String
  contentType : String := ""
  contentLanguage : String := ""
  cacheControl : String := ""
  contentEncoding : String := ""
  contentDisposition : String := ""
  created : String := ""
deriving DecidableEq, Repr

/-- The Storage Gateway state: the collection of stored objects. -/
abbrev Store := List StoredObject

/-- Object attributes as returned by `obj.Attrs`
(`storage.ObjectAttrs`).  `created` holds the already-formatted creation
timestamp. -/
structure ObjAttrs where
  name : String := ""
  size : Nat := 0
  contentType : String := ""
  contentLanguage : String := ""
  cacheControl : String := ""
  contentEncoding : String := ""
  contentDisposition : String := ""
  created : String := ""
deriving DecidableEq, Repr

/-- Attributes of a stored object; the size is the byte length of its
contents. -/
def attrsOfStored (o : StoredObject) : ObjAttrs :=
  { name := o.name, size := o.data.length, contentType := o.contentType,
    contentLanguage := o.contentLanguage, cacheControl := o.cacheControl,
    contentEncoding := o.contentEncoding,
    contentDisposition := o.contentDisposition, created := o.created }

/-- Look up the object with the given bucket and key. -/
def lookupObj (store : Store) (b k : String) : Option StoredObject :=
  List.find? (fun o => o.bucket == b && o.name == k) store

/-- Embedding of `obj.Attrs(ctx)`: attributes of the object, or
`ErrObjectNotExist` when it is absent. -/
def attrsOf (store : Store) (b k : String) : Except GErr ObjAttrs :=
  match lookupObj store b k with
  | none => Except.error GErr.notExist
  | some o => Except.ok (attrsOfStored o)

/-- Contents read through `obj.NewReader` (only meaningful when the object
exists). -/
def dataOf (store : Store) (b k : String) : String :=
  match lookupObj store b k with
  | none => ""
  | some o => o.data

/-- Embedding of `setStrHeader`: add the header only when the value is
non-empty (`w.Header().Add` appends). -/
def setStrHeader (hs : List (String × String)) (key value : String) :
    List (String × String) :=
  if value ≠ "" then hs ++ [(key, value)] else hs

/-- Embedding of `setIntHeader`: add the header only when the value is
positive. -/
def setIntHeader (hs : List (String × String)) (key : String) (value : Nat) :
    List (String × String) :=
  if value > 0 then hs ++ [(key, toString value)] else hs

/-- The six attribute-derived headers set on a media response, in the
order the code sets them. -/
def mediaHeaders (a : ObjAttrs) : List (String × String) :=
  setIntHeader
    (setStrHeader
      (setStrHeader
        (setStrHeader
          (setStrHeader
            (setStrHeader [] "Content-Type" a.contentType)
            "Content-Language" a.contentLanguage)
          "Cache-Control" a.cacheControl)
        "Content-Encoding" a.contentEncoding)
      "Content-Disposition" a.contentDisposition)
    "Content-Length" a.size

/-- First value of a header key, as `http.Header.Get` reads it. -/
def hdrGet (hs : List (String × String)) (key : String) : Option String :=
  (List.find? (fun p => p.1 == key) hs).map (fun p => p.2)

/-! ## Readiness prober (revision B `readinessProbeHandler`) -/

/-- The `bucketResponse` sent over the channel by each per-bucket
goroutine: the bucket's name and whether its `Attrs` call succeeded
(`err == nil`). -/
structure BucketResult where
  bucketName : String
  ok : Bool
deriving DecidableEq, Repr

/-- The aggregation loop `for range bucketList { br := <-ch ... }` over
the channel-arrival sequence: returns the response status and the number
of channel receives performed.  A success returns immediately with the
default 200 status; consuming every result without a success writes
503. -/
def readinessLoop : List BucketResult → Nat × Nat
  | [] => (503, 0)
  | r :: rest =>
    if r.ok then (200, 1)
    else ((readinessLoop rest).1, (readinessLoop rest).2 + 1)

/-- Response status of the readiness handler for a given channel-arrival
sequence. -/
def readinessStatus (arrival : List BucketResult) : Nat :=
  (readinessLoop arrival).1

/-- Number of channel results the handler consumes before returning. -/
def readinessConsumed (arrival : List BucketResult) : Nat :=
  (readinessLoop arrival).2

/-- The set of per-bucket results produced by the goroutines: one per
configured bucket, carrying that bucket's check outcome. -/
def probeResults (buckets : List String) (check : String → Bool) :
    List BucketResult :=
  buckets.map (fun b => { bucketName := b, ok := check b })

theorem readinessLoop_cons (r : BucketResult) (rest : List BucketResult) :
    readinessLoop (r :: rest) =
      if r.ok then (200, 1)
      else ((readinessLoop rest).1, (readinessLoop rest).2 + 1) := rfl

theorem readinessLoop_status_200 (arrival : List BucketResult) :
    readinessStatus arrival = 200 ↔ ∃ r ∈ arrival, r.ok = true := by
  induction arrival with
  | nil => simp [readinessStatus, readinessLoop]
  | cons r rest ih =>
    rw [readinessStatus, readinessLoop_cons]
    rw [readinessStatus] at ih
    by_cases h : r.ok
    · simp [h]
    · simp only [Bool.not_eq_true] at h
      simp [h, ih]

theorem readinessLoop_status_503 (arrival : List BucketResult) :
    readinessStatus arrival = 503 ↔ ∀ r ∈ arrival, r.ok = false := by
  induction arrival with
  | nil => simp [readinessStatus, readinessLoop]
  | cons r rest ih =>
    rw [readinessStatus, readinessLoop_cons]
    rw [readinessStatus] at ih
    by_cases h : r.ok
    · simp [h]
    · simp only [Bool.not_eq_true] at h
      simp [h, ih]

theorem readinessLoop_consumed (arrival : List BucketResult) :
    readinessConsumed arrival =
      (arrival.takeWhile (fun r => !r.ok)).length +
        (if arrival.any (fun r => r.ok) then 1 else 0) := by
  induction arrival with
  | nil => simp [readinessConsumed, readinessLoop]
  | cons r rest ih =>
    rw [readinessConsumed, readinessLoop_cons]
    rw [readinessConsumed] at ih
    by_cases h : r.ok
    · simp [h, List.takeWhile_cons]
    · simp only [Bool.not_eq_true] at h
      simp only [h, Bool.false_eq_true, ite_false, List.takeWhile_cons,
        Bool.not_false, ite_true, List.length_cons, List.any_cons,
        Bool.false_or]
      rw [ih]
      cases hany : rest.any (fun r => r.ok) <;> simp [hany]

/-- Claim C1: for every configured readiness-bucket list and every
completion order of the per-bucket metadata fetches, the handler returns
200 iff at least one bucket's fetch succeeds and 503 iff every bucket's
fetch fails; it consumes channel results in completion order and stops at
the first success, consuming exactly the failing prefix plus that one
success. -/
theorem readinessAggregation
    (buckets : List String) (check : String → Bool)
    (arrival : List BucketResult)
    (hperm : List.Perm arrival (probeResults buckets check)) :
    (readinessStatus arrival = 200 ↔ ∃ b ∈ buckets, check b = true) ∧
    (readinessStatus arrival = 503 ↔ ∀ b ∈ buckets, check b = false) ∧
    readinessConsumed arrival =
      (arrival.takeWhile (fun r => !r.ok)).length +
        (if arrival.any (fun r => r.ok) then 1 else 0) := by
  have hmem : ∀ r : BucketResult,
      r ∈ arrival ↔ r ∈ probeResults buckets check := fun r => hperm.mem_iff
  refine ⟨?_, ?_, readinessLoop_consumed arrival⟩
  · rw [readinessLoop_status_200]
    constructor
    · rintro ⟨r, hr, hok⟩
      rw [hmem] at hr
      simp only [probeResults, List.mem_map] at hr
      obtain ⟨b, hb, rfl⟩ := hr
      exact ⟨b, hb, hok⟩
    · rintro ⟨b, hb, hok⟩
      refine ⟨{ bucketName := b, ok := check b }, ?_, hok⟩
      rw [hmem]
      simp only [probeResults, List.mem_map]
      exact ⟨b, hb, rfl⟩
  · rw [readinessLoop_status_503]
    constructor
    · intro h b hb
      refine h { bucketName := b, ok := check b } ((hmem _).mpr ?_)
      simp only [probeResults, List.mem_map]
      exact ⟨b, hb, rfl⟩
    · intro h r hr
      rw [hmem] at hr
      simp only [probeResults, List.mem_map] at hr
      obtain ⟨b, hb, rfl⟩ := hr
      exact h b hb

/-- Witness for C1 at a concrete input: buckets `["fake-1",
"real-bucket"]` with only `real-bucket` healthy, results arriving in
configuration order. -/
theorem readinessAggregation_w :
    readinessStatus (probeResults ["fake-1", "real-bucket"]
      (fun b => b == "real-bucket")) = 200 ∧
    readinessConsumed (probeResults ["fake-1", "real-bucket"]
      (fun b => b == "real-bucket")) = 2 :=
  ⟨(readinessAggregation ["fake-1", "real-bucket"]
      (fun b => b == "real-bucket")
      (probeResults ["fake-1", "real-bucket"] (fun b => b == "real-bucket"))
      (List.Perm.refl _)).1.mpr (by decide),
   ((readinessAggregation ["fake-1", "real-bucket"]
      (fun b => b == "real-bucket")
      (probeResults ["fake-1", "real-bucket"] (fun b => b == "real-bucket"))
      (List.Perm.refl _)).2.2).trans (by decide)⟩

/-! ## Directory listing emulation (revision B `getDir`) -/

/-- Embedding of `strings.TrimPrefix(s, pre)`: remove `pre` when it is a
prefix of `s`, otherwise return `s` unchanged (character level). -/
def trimPfx (pre s : List Char) : List Char :=
  if List.isPrefixOf pre s then s.drop pre.length else s

/-- Embedding of `strings.Split(s, "/")`: split on every occurrence of
the slash character; the result is never empty. -/
def splitOnSlash : List Char → List (List Char)
  | [] => [[]]
  | c :: cs =>
    let r := splitOnSlash cs
    if c = '/' then [] :: r else (c :: r.headI) :: r.tail

/-- A `dirItem` as built by `getDir`: the visible name, the formatted
creation date and the size string (`"-"` sentinel for sub-prefixes). -/
structure dirItem where
  RelativePath : String
  ModifiedDate : String
  SizeBytes : String
deriving DecidableEq, Repr

/-- One iteration of the `getDir` loop body on attributes `a`, given the
previous kept name `lastName`: `none` means the key is skipped (empty
remainder, or a repeat of the previous kept first segment); otherwise the
produced item and the new `lastName`. -/
def dirStep (pre lastName : List Char) (a : ObjAttrs) :
    Option (dirItem × List Char) :=
  let rem := trimPfx pre a.name.data
  if rem = [] then none
  else
    let parts := splitOnSlash rem
    let nm := parts.headI
    if nm = lastName then none
    else some ({ RelativePath := String.mk nm, ModifiedDate := a.created,
                 SizeBytes := if parts.length > 1 then "-"
                              else toString a.size }, nm)

/-- The `getDir` iteration over an error-free attribute stream. -/
def dirItemsAux (pre lastName : List Char) : List ObjAttrs → List dirItem
  | [] => []
  | a :: rest =>
    match dirStep pre lastName a with
    | none => dirItemsAux pre lastName rest
    | some (it, nm) => it :: dirItemsAux pre nm rest

/-- Directory entries `getDir` produces from the sequence of object
attributes the Storage Gateway yields for the queried prefix
(`lastName` starts out as the empty string). -/
def dirItems (pre : String) (objs : List ObjAttrs) : List dirItem :=
  dirItemsAux pre.data [] objs

/-! ### Claim-side listing procedure (for the refinement statement of C2)

These definitions follow the wording of the specification: strip the
prefix from each key, skip keys with empty remainder, take the first
"/"-separated segment of the remainder as the visible name, skip an entry
whose segment equals the immediately preceding kept segment, and use the
"-" size sentinel exactly when the remainder contains a "/" character. -/

/-- The first "/"-separated segment of a remainder: its characters up to
the first slash. -/
def claimFirstSeg (l : List Char) : List Char :=
  l.takeWhile (fun c => c != '/')

/-- One step of the listing procedure as the specification words it. -/
def claimStep (pre lastName : List Char) (a : ObjAttrs) :
    Option (dirItem × List Char) :=
  let rem := trimPfx pre a.name.data
  if rem = [] then none
  else
    let nm := claimFirstSeg rem
    if nm = lastName then none
    else some ({ RelativePath := String.mk nm, ModifiedDate := a.created,
                 SizeBytes := if '/' ∈ rem then "-"
                              else toString a.size }, nm)

/-- The listing procedure as the specification words it. -/
def claimEntriesAux (pre lastName : List Char) :
    List ObjAttrs → List dirItem
  | [] => []
  | a :: rest =>
    match claimStep pre lastName a with
    | none => claimEntriesAux pre lastName rest
    | some (it, nm) => it :: claimEntriesAux pre nm rest

/-- Directory entries per the specification's description. -/
def claimEntries (pre : String) (objs : List ObjAttrs) : List dirItem :=
  claimEntriesAux pre.data [] objs

theorem splitOnSlash_ne_nil (l : List Char) : splitOnSlash l ≠ [] := by
  cases l with
  | nil => simp [splitOnSlash]
  | cons c cs =>
    simp only [splitOnSlash]
    by_cases h : c = '/' <;> simp [h]

theorem headI_splitOnSlash (l : List Char) :
    (splitOnSlash l).headI = claimFirstSeg l := by
  induction l with
  | nil => simp [splitOnSlash, claimFirstSeg]
  | cons c cs ih =>
    simp only [splitOnSlash, claimFirstSeg, List.takeWhile_cons]
    by_cases h : c = '/'
    · simp [h]
    · have hb : (c != '/') = true := by simp [bne_iff_ne, h]
      simp only [h, ite_false, hb, ite_true]
      show c :: (splitOnSlash cs).headI = _
      rw [claimFirstSeg] at ih
      rw [ih]

theorem length_splitOnSlash (l : List Char) :
    (splitOnSlash l).length > 1 ↔ '/' ∈ l := by
  induction l with
  | nil => simp [splitOnSlash]
  | cons c cs ih =>
    simp only [splitOnSlash]
    have hne : (splitOnSlash cs).length ≠ 0 := by
      simpa [List.length_eq_zero] using splitOnSlash_ne_nil cs
    by_cases h : c = '/'
    · subst h
      simp only [ite_true, List.length_cons, List.mem_cons, true_or,
        iff_true]
      omega
    · have hc : ¬ ('/' = c) := fun hh => h hh.symm
      simp only [h, ite_false, List.length_cons, List.length_tail,
        List.mem_cons, hc, false_or]
      rw [← ih]
      omega

theorem dirStep_eq_claimStep (pre lastName : List Char) (a : ObjAttrs) :
    dirStep pre lastName a = claimStep pre lastName a := by
  rw [dirStep, claimStep]
  by_cases hrem : trimPfx pre a.name.data = []
  · simp [hrem]
  · simp only [hrem, ite_false, headI_splitOnSlash]
    by_cases hnm : claimFirstSeg (trimPfx pre a.name.data) = lastName
    · simp [hnm]
    · simp only [hnm, ite_false]
      have hiff := length_splitOnSlash (trimPfx pre a.name.data)
      by_cases hmem : '/' ∈ trimPfx pre a.name.data
      · simp [hmem, hiff.mpr hmem]
      · have : ¬ (splitOnSlash (trimPfx pre a.name.data)).length > 1 :=
          fun hh => hmem (hiff.mp hh)
        simp [hmem, this]

theorem dirItemsAux_eq_claimEntriesAux (pre : List Char)
    (objs : List ObjAttrs) :
    ∀ lastName, dirItemsAux pre lastName objs =
      claimEntriesAux pre lastName objs := by
  induction objs with
  | nil => intro lastName; rfl
  | cons a rest ih =>
    intro lastName
    rw [dirItemsAux, claimEntriesAux, dirStep_eq_claimStep]
    cases claimStep pre lastName a with
    | none => exact ih lastName
    | some p =>
      obtain ⟨it, nm⟩ := p
      show it :: dirItemsAux pre nm rest = it :: claimEntriesAux pre nm rest
      rw [ih nm]

/-- The two-key example of the claim. -/
def exListing : List ObjAttrs :=
  [{ name := "dir/a.txt", size := 7, created := "t1" },
   { name := "dir/b/c.txt", size := 9, created := "t2" }]

/-- Counterexample for claim C2 as stated: on keys
`{"dir/a.txt", "dir/b/c.txt"}` with prefix `"dir/"` the second entry's
relativePath is `"b"`, not `"b/"` (`nameParts[0]` carries no trailing
slash). -/
theorem dirListingSlash_cex :
    ¬ ((dirItems "dir/" exListing).map (fun it => it.RelativePath) =
        ["a.txt", "b/"]) := by decide

/-- Claim C2 (amended: the sub-directory entry is named `b`, without a
trailing slash): the listing emulator produces exactly the entries the
specification describes — strip the prefix, skip empty remainders, keep
the first "/"-separated segment, skip repeats of the immediately
preceding kept segment, sentinel size exactly when the remainder contains
a "/" — and on keys `{"dir/a.txt", "dir/b/c.txt"}` with prefix `"dir/"`
it yields exactly `a.txt` with its real size and `b` with sentinel
`"-"`. -/
theorem dirListingMatches :
    (∀ (pre : String) (objs : List ObjAttrs),
      dirItems pre objs = claimEntries pre objs) ∧
    dirItems "dir/" exListing =
      [{ RelativePath := "a.txt", ModifiedDate := "t1", SizeBytes := "7" },
       { RelativePath := "b", ModifiedDate := "t2", SizeBytes := "-" }] := by
  constructor
  · intro pre objs
    exact dirItemsAux_eq_claimEntriesAux pre.data objs []
  · decide

/-! ## Uniqueness of relativePaths (claim C5) -/

/-- First segments of the remainders of the yielded keys, in yield order,
with the prefix-object itself (empty remainder) removed — the sequence
the adjacent-deduplication of `getDir` runs over. -/
def segsOfChars (pre : List Char) (objs : List ObjAttrs) :
    List (List Char) :=
  objs.filterMap (fun a =>
    let rem := trimPfx pre a.name.data
    if rem = [] then none else some ((splitOnSlash rem).headI))

/-- The segments `getDir` keeps: drop a segment equal to the previously
kept one (`lastName`), keep it otherwise. -/
def keptSegs {α : Type} [DecidableEq α] (lastName : α) : List α → List α
  | [] => []
  | s :: rest =>
    if s = lastName then keptSegs lastName rest else s :: keptSegs s rest

/-- A sequence is grouped when equal values only occur contiguously:
no value recurs after a different value has intervened. -/
def grouped {α : Type} (l : List α) : Prop :=
  ∀ a b : α, List.Sublist [a, b, a] l → b = a

theorem grouped_of_sublist {α : Type} {m l : List α}
    (hm : List.Sublist m l) (hl : grouped l) : grouped m :=
  fun a b hab => hl a b (hab.trans hm)

theorem grouped_of_short {α : Type} {l : List α}
    (hl : l.length ≤ 2) : grouped l := by
  intro a b hab
  have := hab.length_le
  simp only [List.length_cons, List.length_nil] at this
  omega

theorem keptSegs_subset {α : Type} [DecidableEq α]
    (lastName : α) (l : List α) :
    ∀ x ∈ keptSegs lastName l, x ∈ l := by
  induction l generalizing lastName with
  | nil => intro x hx; simp [keptSegs] at hx
  | cons s rest ih =>
    intro x hx
    rw [keptSegs] at hx
    by_cases h : s = lastName
    · simp only [h, ite_true] at hx
      exact List.mem_cons_of_mem s (ih lastName x hx)
    · simp only [h, ite_false, List.mem_cons] at hx
      rcases hx with hx | hx
      · simp [hx]
      · exact List.mem_cons_of_mem s (ih s x hx)

theorem keptSegs_not_mem {α : Type} [DecidableEq α]
    (lastName : α) (l : List α) (hg : grouped (lastName :: l)) :
    lastName ∉ keptSegs lastName l := by
  induction l generalizing lastName with
  | nil => simp [keptSegs]
  | cons t rest ih =>
    rw [keptSegs]
    by_cases h : t = lastName
    · subst h
      simp only [ite_true]
      refine ih t (grouped_of_sublist ?_ hg)
      exact List.Sublist.cons₂ t (List.Sublist.cons t (List.Sublist.refl rest))
    · simp only [h, ite_false, List.mem_cons]
      rintro (hx | hx)
      · exact h hx.symm
      · have hmem : lastName ∈ rest := keptSegs_subset t rest lastName hx
        have hsub : List.Sublist [lastName, t, lastName]
            (lastName :: t :: rest) :=
          List.Sublist.cons₂ lastName (List.Sublist.cons₂ t
            (List.singleton_sublist.mpr hmem))
        exact h (hg lastName t hsub)

theorem keptSegs_nodup {α : Type} [DecidableEq α]
    (lastName : α) (l : List α) (hg : grouped l) :
    (keptSegs lastName l).Nodup := by
  induction l generalizing lastName with
  | nil => simp [keptSegs]
  | cons s rest ih =>
    have hrest : grouped rest :=
      grouped_of_sublist (List.Sublist.cons s (List.Sublist.refl rest)) hg
    rw [keptSegs]
    by_cases h : s = lastName
    · simp only [h, ite_true]
      exact ih lastName hrest
    · simp only [h, ite_false, List.nodup_cons]
      exact ⟨keptSegs_not_mem s rest hg, ih s hrest⟩

theorem segsOfChars_cons (pre : List Char) (a : ObjAttrs)
    (rest : List ObjAttrs) :
    segsOfChars pre (a :: rest) =
      if trimPfx pre a.name.data = [] then segsOfChars pre rest
      else (splitOnSlash (trimPfx pre a.name.data)).headI ::
        segsOfChars pre rest := by
  by_cases hrem : trimPfx pre a.name.data = [] <;>
    simp [segsOfChars, List.filterMap_cons, hrem]

theorem dirItemsAux_cons (pre lastName : List Char) (a : ObjAttrs)
    (rest : List ObjAttrs) :
    dirItemsAux pre lastName (a :: rest) =
      if trimPfx pre a.name.data = [] then dirItemsAux pre lastName rest
      else
        if (splitOnSlash (trimPfx pre a.name.data)).headI = lastName then
          dirItemsAux pre lastName rest
        else
          { RelativePath :=
              String.mk ((splitOnSlash (trimPfx pre a.name.data)).headI),
            ModifiedDate := a.created,
            SizeBytes :=
              if (splitOnSlash (trimPfx pre a.name.data)).length > 1
              then "-" else toString a.size } ::
            dirItemsAux pre
              ((splitOnSlash (trimPfx pre a.name.data)).headI) rest := by
  rw [dirItemsAux, dirStep]
  by_cases hrem : trimPfx pre a.name.data = []
  · simp [hrem]
  · by_cases hnm :
      (splitOnSlash (trimPfx pre a.name.data)).headI = lastName <;>
      simp [hrem, hnm]

theorem dirItemsAux_map_rel (pre : List Char) (objs : List ObjAttrs) :
    ∀ lastName, (dirItemsAux pre lastName objs).map
        (fun it => it.RelativePath) =
      (keptSegs lastName (segsOfChars pre objs)).map String.mk := by
  induction objs with
  | nil => intro lastName; rfl
  | cons a rest ih =>
    intro lastName
    rw [dirItemsAux_cons, segsOfChars_cons]
    by_cases hrem : trimPfx pre a.name.data = []
    · simp only [hrem, ite_true]
      exact ih lastName
    · simp only [hrem, ite_false]
      rw [keptSegs]
      by_cases hnm : (splitOnSlash (trimPfx pre a.name.data)).headI = lastName
      · simp only [hnm, ite_true]
        exact ih lastName
      · simp only [hnm, ite_false, List.map_cons]
        rw [ih ((splitOnSlash (trimPfx pre a.name.data)).headI)]

theorem stringMk_injective : Function.Injective String.mk := by
  intro a b h
  injection h

/-- Counterexample input for C5: the Storage Gateway yields the keys
under `dir/` in a non-lexicographic order, so equal first segments are
not adjacent. -/
def cexListing : List ObjAttrs :=
  [{ name := "dir/a/x", size := 1, created := "t1" },
   { name := "dir/b", size := 2, created := "t2" },
   { name := "dir/a/y", size := 3, created := "t3" }]

/-- Counterexample for claim C5 as stated: with yield order
`dir/a/x, dir/b, dir/a/y` for prefix `dir/`, the adjacent-only
deduplication keeps the relativePaths `a, b, a` — not pairwise
distinct.  The claimed uniqueness does not hold for every yield order. -/
theorem dirListingUnique_cex :
    ¬ (((dirItems "dir/" cexListing).map
        (fun it => it.RelativePath)).Nodup) := by decide

/-- Claim C5 (amended: the uniqueness holds provided keys whose
remainders share a first segment are yielded adjacently, as the
adjacent-only deduplication assumes — not for arbitrary yield order):
whenever the sequence of first segments of the stripped keys is grouped
(equal values occur only contiguously), the relativePath values of the
produced entries are pairwise distinct. -/
theorem dirListingUnique (pre : String) (objs : List ObjAttrs)
    (hg : grouped (segsOfChars pre.data objs)) :
    ((dirItems pre objs).map (fun it => it.RelativePath)).Nodup := by
  rw [dirItems, dirItemsAux_map_rel]
  exact (keptSegs_nodup [] (segsOfChars pre.data objs) hg).map
    stringMk_injective

/-- Witness for C5 at the two-key example of the specification (its
segment sequence has length two, hence is trivially grouped). -/
theorem dirListingUnique_w :
    ((dirItems "dir/" exListing).map (fun it => it.RelativePath)).Nodup :=
  dirListingUnique "dir/" exListing (grouped_of_short (by decide))

/-! ## The full `getDir` handler: redirect, iteration errors, rendering -/

/-- Observable response actions of `getDir`: the `http.Redirect` call and
the rendering of the directory-index template over the produced items. -/
inductive DirEffect where
  | redirect (location : String) (status : Nat)
  | render (pre : String) (items : List dirItem)
deriving DecidableEq, Repr

/-- Outcome of a `getDir` call: either the process dies (`log.Fatal` on
an iteration error) or the handler runs to completion having performed
the listed response actions. -/
inductive DirOutcome where
  | fatal (e : GErr)
  | completed (effects : List DirEffect)
deriving DecidableEq, Repr

/-- The `getDir` iteration over the Storage Gateway's yield stream, where
each step either yields attributes or fails: the first failing step hits
`log.Fatal(err)` (modelled as `Except.error`). -/
def collectDir (pre lastName : List Char) :
    List (Except GErr ObjAttrs) → Except GErr (List dirItem)
  | [] => Except.ok []
  | Except.error e :: _ => Except.error e
  | Except.ok a :: rest =>
    match dirStep pre lastName a with
    | none => collectDir pre lastName rest
    | some (it, nm) => (collectDir pre nm rest).map (fun l => it :: l)

/-- Embedding of `getDir` (`main.go`, revision B): when the prefix is
non-empty and its last character is not a slash, `http.Redirect` to
`r.RequestURI + "/"` with status 307 is issued — with no early return, so
the handler continues; it then iterates over the yield stream (a mid-
iteration error is `log.Fatal`, killing the process) and renders the
directory template over the collected items, with the displayed prefix
`"/"` when the queried one is empty. -/
def getDir (requestURI pre : String)
    (stream : List (Except GErr ObjAttrs)) : DirOutcome :=
  let redir : List DirEffect :=
    if pre ≠ "" ∧ pre.data.getLast? ≠ some '/' then
      [DirEffect.redirect (requestURI ++ "/") 307]
    else []
  match collectDir pre.data [] stream with
  | Except.error e => DirOutcome.fatal e
  | Except.ok items =>
      DirOutcome.completed
        (redir ++ [DirEffect.render (if pre = "" then "/" else pre) items])

/-- Claim C3 (code bug witnessed at a concrete input): requesting the
directory path `/bkt/dir` (prefix `dir`, no trailing slash) over a
gateway that yields key `dir2/x.txt` under that raw prefix makes the
handler issue the 307 redirect to `/bkt/dir/` AND still produce the
directory listing in the same response — `http.Redirect` is not followed
by a return, so listing occurs on the redirect response, contradicting
the claim that none is produced. -/
theorem dirRedirectStillLists :
    getDir "/bkt/dir" "dir"
        [Except.ok { name := "dir2/x.txt", size := 5, created := "t1" }] =
      DirOutcome.completed
        [DirEffect.redirect "/bkt/dir/" 307,
         DirEffect.render "dir"
           [{ RelativePath := "2", ModifiedDate := "t1",
              SizeBytes := "-" }]] := by decide

/-- Counterexample for claim C6 as stated: a storage-layer failure during
directory-listing iteration is not surfaced to the caller as an HTTP
error response — the handler hits `log.Fatal` and the process dies. -/
theorem listingErrorFatal_cex :
    getDir "/bkt/p/" "p/" [Except.error (GErr.other "network failure")] =
      DirOutcome.fatal (GErr.other "network failure") := by decide

/-! ## Directory check and GET/HEAD dispatch (revision B) -/

/-- The prefix normalization inside `isDirectory`: append `"/"` when the
prefix is non-empty and its last character is not already a slash. -/
def normPfx (p : String) : String :=
  if p ≠ "" ∧ p.data.getLast? ≠ some '/' then p ++ "/" else p

/-- The Storage Gateway's prefix-listing for a bucket: all stored objects
of that bucket whose key starts with the prefix. -/
def listObjects (store : Store) (b pre : String) : List StoredObject :=
  List.filter (fun o => o.bucket == b && List.isPrefixOf pre.data o.name.data)
    store

/-- Embedding of `isDirectory`: normalize the prefix, then true iff the
first `Next()` of the prefix-listing yields an item. -/
def isDirectory (store : Store) (b k : String) : Bool :=
  (listObjects store b (normPfx k)).head?.isSome

/-- Which handler the GET/HEAD arm of revision B's `proxy` delegates
to. -/
inductive Handler where
  | dir
  | file
deriving DecidableEq, Repr

/-- The GET/HEAD dispatch of revision B's `proxy`: directory-listing
emulation when `isDirectory` holds, single-file retrieval otherwise. -/
def dispatchGet (store : Store) (b k : String) : Handler :=
  if isDirectory store b k then Handler.dir else Handler.file

/-- Claim C4: GET/HEAD delegates to the listing emulator exactly when
`isDirectory` is true and to file retrieval otherwise; `isDirectory`
appends `"/"` to a non-empty key not already ending in `"/"` and is true
iff the gateway's prefix-listing for the normalized prefix yields at
least one item. -/
theorem dispatchDirectoryCheck (store : Store) (b k : String) :
    (dispatchGet store b k = Handler.dir ↔ isDirectory store b k = true) ∧
    (dispatchGet store b k = Handler.file ↔ isDirectory store b k = false) ∧
    (isDirectory store b k = true ↔
      ∃ o ∈ store, o.bucket = b ∧
        List.isPrefixOf (normPfx k).data o.name.data = true) ∧
    (k ≠ "" → k.data.getLast? ≠ some '/' → normPfx k = k ++ "/") ∧
    (k = "" ∨ k.data.getLast? = some '/' → normPfx k = k) := by
  refine ⟨?_, ?_, ?_, ?_, ?_⟩
  · rw [dispatchGet]
    cases h : isDirectory store b k <;> simp [h]
  · rw [dispatchGet]
    cases h : isDirectory store b k <;> simp [h]
  · rw [isDirectory]
    rw [List.head?_isSome]
    constructor
    · intro hne
      obtain ⟨o, ho⟩ := List.exists_mem_of_ne_nil _ hne
      have := List.of_mem_filter ho
      simp only [Bool.and_eq_true, beq_iff_eq] at this
      exact ⟨o, List.mem_of_mem_filter ho, this.1, this.2⟩
    · rintro ⟨o, ho, hb, hp⟩ hnil
      have : o ∈ listObjects store b (normPfx k) := by
        rw [listObjects, List.mem_filter]
        exact ⟨ho, by simp [hb, hp]⟩
      rw [hnil] at this
      simp at this
  · intro hk hlast
    simp [normPfx, hk, hlast]
  · rintro (hk | hlast)
    · simp [normPfx, hk]
    · simp [normPfx, hlast]

/-- Witness for C4 at a concrete input: a store holding `b/dir/a.txt`,
queried with key `dir` (no trailing slash). -/
theorem dispatchDirectoryCheck_w :
    dispatchGet [{ bucket := "b", name := "dir/a.txt", data := "hi" }]
      "b" "dir" = Handler.dir ∧
    normPfx "dir" = "dir" ++ "/" :=
  ⟨(dispatchDirectoryCheck
      [{ bucket := "b", name := "dir/a.txt", data := "hi" }]
      "b" "dir").1.mpr (by decide),
   (dispatchDirectoryCheck
      [{ bucket := "b", name := "dir/a.txt", data := "hi" }]
      "b" "dir").2.2.2.1 (by decide) (by decide)⟩

/-! ## Single-file retrieval and signed-URL mode (revision B `getFile`) -/

/-- The options record `getFile` builds for `storage.SignedURL`: V4 GET
signed URL for the target object, expiring one hour after the current
time (`time.Now().Add(1 * time.Hour)`), modelled in seconds. -/
structure SignedURL where
  bucket : String
  object : String
  method : String
  expires : Nat
deriving DecidableEq, Repr

/-- Embedding of `generateV4GetObjectSignedURL`: the signed URL for a GET
of the object, valid until one hour from now. -/
def generateV4GetObjectSignedURL (b o : String) (now : Nat) : SignedURL :=
  { bucket := b, object := o, method := "GET", expires := now + 3600 }

/-- Result of `getFile`: a storage error passed to `handleError`, a 307
redirect to a signed URL, or a direct stream of the object bytes with the
attribute-derived headers. -/
inductive FileResult where
  | error (e : GErr)
  | redirect (u : SignedURL) (status : Nat)
  | stream (headers : List (String × String)) (data : String)
deriving DecidableEq, Repr

/-- Embedding of `getFile` (revision B): fetch the object's attributes
first (an error is handed to `handleError` and the handler returns);
then, in signed-URL mode, redirect 307 to a freshly generated signed URL;
otherwise copy the attributes onto the response headers and stream the
object's bytes. -/
def getFile (store : Store) (signedUrlGet : Bool) (now : Nat)
    (b k : String) : FileResult :=
  match attrsOf store b k with
  | Except.error e => FileResult.error e
  | Except.ok attr =>
    if signedUrlGet then
      FileResult.redirect (generateV4GetObjectSignedURL b k now) 307
    else
      FileResult.stream (mediaHeaders attr) (dataOf store b k)

/-- The HTTP status a `FileResult` is reported with (`handleError`
statuses for errors, 307 for the redirect, default 200 for a stream). -/
def fileRespStatus : FileResult → Nat
  | FileResult.error e => (handleErrorResp e).status
  | FileResult.redirect _ s => s
  | FileResult.stream _ _ => 200

/-- Claim C9: with signed-URL mode enabled, a GET/HEAD of an existing
object never streams the object's bytes: the handler builds a signed URL
for the target object expiring one hour from generation time and responds
with a 307 temporary redirect to it. -/
theorem signedGetRedirects (store : Store) (now : Nat) (b k : String)
    (o : StoredObject) (hobj : lookupObj store b k = some o) :
    getFile store true now b k =
      FileResult.redirect
        { bucket := b, object := k, method := "GET",
          expires := now + 3600 } 307 ∧
    ∀ hs d, getFile store true now b k ≠ FileResult.stream hs d := by
  have : attrsOf store b k = Except.ok (attrsOfStored o) := by
    rw [attrsOf, hobj]
  constructor
  · rw [getFile, this]
    rfl
  · intro hs d
    rw [getFile, this]
    simp [generateV4GetObjectSignedURL]

/-- Witness for C9 at a concrete input: a one-object store in signed-URL
mode. -/
theorem signedGetRedirects_w :
    getFile [{ bucket := "b", name := "k", data := "payload" }]
        true 1000 "b" "k" =
      FileResult.redirect
        { bucket := "b", object := "k", method := "GET",
          expires := 1000 + 3600 } 307 :=
  (signedGetRedirects [{ bucket := "b", name := "k", data := "payload" }]
    1000 "b" "k" { bucket := "b", name := "k", data := "payload" }
    (by decide)).1

/-- Claim C10: even in signed-URL mode, `getFile` fetches the object's
attributes before generating any redirect, so a GET/HEAD of a key that
does not exist (and is not a directory prefix, hence dispatched to
`getFile`) yields the `handleError` 404 response and no signed-URL
redirect is ever issued. -/
theorem signedGetMissing (store : Store) (now : Nat) (b k : String)
    (habs : lookupObj store b k = none)
    (hdir : isDirectory store b k = false) :
    dispatchGet store b k = Handler.file ∧
    getFile store true now b k = FileResult.error GErr.notExist ∧
    fileRespStatus (getFile store true now b k) = 404 ∧
    ∀ u s, getFile store true now b k ≠ FileResult.redirect u s := by
  have herr : attrsOf store b k = Except.error GErr.notExist := by
    rw [attrsOf, habs]
  refine ⟨?_, ?_, ?_, ?_⟩
  · rw [dispatchGet, hdir]
    rfl
  · rw [getFile, herr]
  · rw [getFile, herr]
    rfl
  · intro u s
    rw [getFile, herr]
    simp

/-- Witness for C10 at a concrete input: the empty store. -/
theorem signedGetMissing_w :
    dispatchGet [] "b" "missing" = Handler.file ∧
    getFile [] true 0 "b" "missing" = FileResult.error GErr.notExist ∧
    fileRespStatus (getFile [] true 0 "b" "missing") = 404 :=
  ⟨(signedGetMissing [] 0 "b" "missing" (by decide) (by decide)).1,
   (signedGetMissing [] 0 "b" "missing" (by decide) (by decide)).2.1,
   (signedGetMissing [] 0 "b" "missing" (by decide) (by decide)).2.2.1⟩

theorem collectDir_error (pre : List Char) (e : GErr)
    (suff : List (Except GErr ObjAttrs)) (pres : List ObjAttrs) :
    ∀ lastName, collectDir pre lastName
        (pres.map Except.ok ++ Except.error e :: suff) = Except.error e := by
  induction pres with
  | nil => intro lastName; rfl
  | cons a rest ih =>
    intro lastName
    rw [List.map_cons, List.cons_append, collectDir]
    cases dirStep pre lastName a with
    | none => exact ih lastName
    | some p =>
      obtain ⟨it, nm⟩ := p
      show (collectDir pre nm
          (rest.map Except.ok ++ Except.error e :: suff)).map
            (fun l => it :: l) = Except.error e
      rw [ih nm]
      rfl

/-- Claim C6 (amended: failures reaching `handleError` — attribute
fetches, reads, writes, deletes — are surfaced on the same request as 404
with the backend's error text for object-not-exist and 500 with the error
text otherwise; but a failure during directory-listing iteration is NOT
surfaced: `getDir` calls `log.Fatal`, terminating the process instead of
answering the request). -/
theorem storageErrorSurfacing :
    (∀ e : GErr,
      (handleErrorResp e).status = (if e = GErr.notExist then 404 else 500) ∧
      (handleErrorResp e).body = errText e) ∧
    (∀ (store : Store) (sug : Bool) (now : Nat) (b k : String) (e : GErr),
      attrsOf store b k = Except.error e →
        getFile store sug now b k = FileResult.error e ∧
        fileRespStatus (getFile store sug now b k) =
          (if e = GErr.notExist then 404 else 500)) ∧
    (∀ (uri pre : String) (pres : List ObjAttrs) (e : GErr)
        (suff : List (Except GErr ObjAttrs)),
      getDir uri pre (pres.map Except.ok ++ Except.error e :: suff) =
        DirOutcome.fatal e) := by
  refine ⟨?_, ?_, ?_⟩
  · intro e
    by_cases h : e = GErr.notExist <;> simp [handleErrorResp, h]
  · intro store sug now b k e herr
    rw [getFile, herr]
    refine ⟨rfl, ?_⟩
    rw [fileRespStatus, handleErrorResp]
    by_cases h : e = GErr.notExist <;> simp [h]
  · intro uri pre pres e suff
    rw [getDir]
    rw [collectDir_error pre.data e suff pres []]

/-- Witness for C6's amended statement at concrete inputs: the missing
object's attribute failure is surfaced as a 404 on the same request. -/
theorem storageErrorSurfacing_w :
    getFile [] false 0 "b" "nope" = FileResult.error GErr.notExist ∧
    fileRespStatus (getFile [] false 0 "b" "nope") =
      (if GErr.notExist = GErr.notExist then 404 else 500) :=
  storageErrorSurfacing.2.1 [] false 0 "b" "nope" GErr.notExist rfl

/-! ## Revision A `proxy`: content negotiation and upload -/

/-- Model of `json.Marshal(attr)`: a concrete JSON encoding of the
object's attributes. -/
def jsonMarshal (a : ObjAttrs) : String :=
  "\x7b\"Name\":\"" ++ a.name ++
  "\",\"ContentType\":\"" ++ a.contentType ++
  "\",\"ContentLanguage\":\"" ++ a.contentLanguage ++
  "\",\"CacheControl\":\"" ++ a.cacheControl ++
  "\",\"ContentEncoding\":\"" ++ a.contentEncoding ++
  "\",\"ContentDisposition\":\"" ++ a.contentDisposition ++
  "\",\"Size\":" ++ toString a.size ++
  ",\"Created\":\"" ++ a.created ++ "\"\x7d"

/-- Result of revision A's GET/HEAD arm: a storage error handed to
`handleError`, or a response with the headers the handler set and the
body it wrote. -/
inductive GetResult where
  | error (e : GErr)
  | response (headers : List (String × String)) (body : String)
deriving DecidableEq, Repr

/-- Headers of a `GetResult` (empty for the error case). -/
def headersOfResult : GetResult → List (String × String)
  | GetResult.error _ => []
  | GetResult.response hs _ => hs

/-- Body of a `GetResult` (the `http.Error` text for the error case). -/
def bodyOfResult : GetResult → String
  | GetResult.error e => errText e
  | GetResult.response _ b => b

/-- Embedding of revision A's `proxy` GET/HEAD arm: fetch attributes and
open the reader (missing object fails both with `ErrObjectNotExist`);
when the `alt` query parameter is not `"media"`, answer the JSON-encoded
attributes with `Content-Type: application/json`; when it is `"media"`,
copy the non-empty attributes onto the response headers and stream the
object bytes. -/
def proxyGet (store : Store) (alt b k : String) : GetResult :=
  match lookupObj store b k with
  | none => GetResult.error GErr.notExist
  | some o =>
    if alt ≠ "media" then
      GetResult.response (setStrHeader [] "Content-Type" "application/json")
        (jsonMarshal (attrsOfStored o))
    else
      GetResult.response (mediaHeaders (attrsOfStored o)) o.data

/-- Embedding of the POST/PUT arm: read the whole request body and write
it verbatim as the object's contents (replacing any previous object with
the same bucket and key). -/
def proxyPut (store : Store) (b k body : String) : Store :=
  (List.filter (fun o => !(o.bucket == b && o.name == k)) store) ++
    [{ bucket := b, name := k, data := body }]

theorem hdrGet_append_one (hs : List (String × String)) (k v key : String) :
    hdrGet (hs ++ [(k, v)]) key =
      (hdrGet hs key).or (if k == key then some v else none) := by
  rw [hdrGet, List.find?_append]
  cases hfind : List.find? (fun p => p.1 == key) hs <;>
    by_cases hk : (k == key) = true <;>
      simp [hdrGet, hfind, hk, List.find?]

theorem hdrGet_setStr (hs : List (String × String)) (k v key : String) :
    hdrGet (setStrHeader hs k v) key =
      if k = key ∧ v ≠ "" then (hdrGet hs key).or (some v)
      else hdrGet hs key := by
  rw [setStrHeader]
  by_cases hv : v = ""
  · simp [hv]
  · rw [if_pos hv, hdrGet_append_one]
    by_cases hk : k = key
    · simp [hk, hv]
    · have hb : (k == key) = false := by simp [hk]
      simp [hb, hk]

theorem hdrGet_setInt (hs : List (String × String)) (k key : String)
    (v : Nat) :
    hdrGet (setIntHeader hs k v) key =
      if k = key ∧ v > 0 then (hdrGet hs key).or (some (toString v))
      else hdrGet hs key := by
  rw [setIntHeader]
  by_cases hv : v > 0
  · rw [if_pos hv, hdrGet_append_one]
    by_cases hk : k = key
    · simp [hk, hv]
    · have hb : (k == key) = false := by simp [hk]
      simp [hb, hk, hv]
  · simp [hv]

theorem mediaHeaders_lookup (a : ObjAttrs) :
    hdrGet (mediaHeaders a) "Content-Type" =
      (if a.contentType = "" then none else some a.contentType) ∧
    hdrGet (mediaHeaders a) "Content-Language" =
      (if a.contentLanguage = "" then none else some a.contentLanguage) ∧
    hdrGet (mediaHeaders a) "Cache-Control" =
      (if a.cacheControl = "" then none else some a.cacheControl) ∧
    hdrGet (mediaHeaders a) "Content-Encoding" =
      (if a.contentEncoding = "" then none else some a.contentEncoding) ∧
    hdrGet (mediaHeaders a) "Content-Disposition" =
      (if a.contentDisposition = "" then none
       else some a.contentDisposition) ∧
    hdrGet (mediaHeaders a) "Content-Length" =
      (if a.size = 0 then none else some (toString a.size)) := by
  have hnil : ∀ key : String, hdrGet [] key = none := fun _ => rfl
  refine ⟨?_, ?_, ?_, ?_, ?_, ?_⟩
  · simp only [mediaHeaders, hdrGet_setInt, hdrGet_setStr]
    by_cases hv : a.contentType = "" <;> simp [hv, hnil]
  · simp only [mediaHeaders, hdrGet_setInt, hdrGet_setStr]
    by_cases hv : a.contentLanguage = "" <;> simp [hv, hnil]
  · simp only [mediaHeaders, hdrGet_setInt, hdrGet_setStr]
    by_cases hv : a.cacheControl = "" <;> simp [hv, hnil]
  · simp only [mediaHeaders, hdrGet_setInt, hdrGet_setStr]
    by_cases hv : a.contentEncoding = "" <;> simp [hv, hnil]
  · simp only [mediaHeaders, hdrGet_setInt, hdrGet_setStr]
    by_cases hv : a.contentDisposition = "" <;> simp [hv, hnil]
  · simp only [mediaHeaders, hdrGet_setInt, hdrGet_setStr]
    by_cases hv : a.size = 0 <;> simp [hv, hnil]

/-- Claim C7: for a GET of an existing object, a non-`media` `alt` query
parameter yields the JSON-encoded attributes with
`Content-Type: application/json`, and `alt=media` yields the raw object
bytes with each of the six attribute headers set exactly when the
corresponding attribute is non-empty (non-zero for the size). -/
theorem getAltNegotiation (store : Store) (alt b k : String)
    (o : StoredObject) (hobj : lookupObj store b k = some o) :
    (alt ≠ "media" →
      proxyGet store alt b k =
        GetResult.response [("Content-Type", "application/json")]
          (jsonMarshal (attrsOfStored o))) ∧
    (alt = "media" →
      proxyGet store alt b k =
        GetResult.response (mediaHeaders (attrsOfStored o)) o.data) ∧
    (∀ a : ObjAttrs,
      ((hdrGet (mediaHeaders a) "Content-Type").isSome ↔
        a.contentType ≠ "") ∧
      ((hdrGet (mediaHeaders a) "Content-Language").isSome ↔
        a.contentLanguage ≠ "") ∧
      ((hdrGet (mediaHeaders a) "Cache-Control").isSome ↔
        a.cacheControl ≠ "") ∧
      ((hdrGet (mediaHeaders a) "Content-Encoding").isSome ↔
        a.contentEncoding ≠ "") ∧
      ((hdrGet (mediaHeaders a) "Content-Disposition").isSome ↔
        a.contentDisposition ≠ "") ∧
      ((hdrGet (mediaHeaders a) "Content-Length").isSome ↔
        a.size ≠ 0)) := by
  refine ⟨?_, ?_, ?_⟩
  · intro halt
    rw [proxyGet, hobj]
    simp [halt, setStrHeader]
  · intro halt
    rw [proxyGet, hobj]
    simp [halt]
  · intro a
    obtain ⟨h1, h2, h3, h4, h5, h6⟩ := mediaHeaders_lookup a
    rw [h1, h2, h3, h4, h5, h6]
    refine ⟨?_, ?_, ?_, ?_, ?_, ?_⟩ <;> split_ifs <;> simp_all

/-- A one-object store used as concrete input for the revision A
witnesses. -/
def exStored : StoredObject :=
  { bucket := "b", name := "k", data := "hi",
    contentType := "text/plain" }

/-- Witness for C7 at a concrete input: the one-object store, queried
with an empty `alt` (JSON-metadata branch). -/
theorem getAltNegotiation_w :
    proxyGet [exStored] "" "b" "k" =
      GetResult.response [("Content-Type", "application/json")]
        (jsonMarshal (attrsOfStored exStored)) :=
  (getAltNegotiation [exStored] "" "b" "k" exStored (by decide)).1
    (by decide)

theorem lookupObj_put (store : Store) (b k body : String) :
    lookupObj (proxyPut store b k body) b k =
      some { bucket := b, name := k, data := body } := by
  rw [lookupObj, proxyPut, List.find?_append]
  have hnone : List.find? (fun o => o.bucket == b && o.name == k)
      (List.filter (fun o => !(o.bucket == b && o.name == k)) store) =
        none := by
    rw [List.find?_eq_none]
    intro x hx
    have := List.of_mem_filter hx
    simp only [Bool.not_eq_true'] at this
    simp [this]
  rw [hnone]
  simp [List.find?]

/-- Claim C8 (amended: for an empty body the round trip still returns
the empty body, but the handler sets no Content-Length header, since
`setIntHeader` skips non-positive values): a PUT of body `B` followed by
a GET of the same path with `alt=media` answers exactly `B`, and — for
non-empty `B` — the Content-Length header the handler set equals
`len(B)`. -/
theorem putGetRoundTrip (store : Store) (b k B : String) :
    proxyGet (proxyPut store b k B) "media" b k =
      GetResult.response
        (mediaHeaders (attrsOfStored { bucket := b, name := k, data := B }))
        B ∧
    bodyOfResult (proxyGet (proxyPut store b k B) "media" b k) = B ∧
    (B ≠ "" →
      hdrGet (headersOfResult (proxyGet (proxyPut store b k B) "media" b k))
        "Content-Length" = some (toString B.length)) := by
  have hlook := lookupObj_put store b k B
  have hresp : proxyGet (proxyPut store b k B) "media" b k =
      GetResult.response
        (mediaHeaders (attrsOfStored { bucket := b, name := k, data := B }))
        B := by
    rw [proxyGet, hlook]
    simp
  refine ⟨hresp, ?_, ?_⟩
  · rw [hresp]
    rfl
  · intro hB
    rw [hresp]
    have h6 := (mediaHeaders_lookup
      (attrsOfStored { bucket := b, name := k, data := B })).2.2.2.2.2
    rw [headersOfResult, h6]
    have hlen : ¬ (B.length = 0) := by
      intro h0
      apply hB
      have hdata : B.data = [] := List.length_eq_zero.mp h0
      exact String.ext (hdata.trans (rfl : ([] : List Char) = "".data))
    simp [attrsOfStored, hlen]

/-- Counterexample for claim C8 as stated: after a PUT of the empty body,
the `alt=media` GET response carries no Content-Length header at all
(`setIntHeader` only adds positive values), so the header does not equal
`len(B) = 0`. -/
theorem putGetRoundTrip_cex :
    ¬ (hdrGet (headersOfResult
        (proxyGet (proxyPut [] "b" "k" "") "media" "b" "k"))
        "Content-Length" = some (toString ("" : String).length)) := by
  decide

/-- Witness for C8's amended statement at a concrete input: body
`"hello"` round-trips with Content-Length 5. -/
theorem putGetRoundTrip_w :
    bodyOfResult (proxyGet (proxyPut [] "b" "k" "hello") "media" "b" "k") =
      "hello" ∧
    hdrGet (headersOfResult
        (proxyGet (proxyPut [] "b" "k" "hello") "media" "b" "k"))
      "Content-Length" = some (toString ("hello" : String).length) :=
  ⟨(putGetRoundTrip [] "b" "k" "hello").2.1,
   (putGetRoundTrip [] "b" "k" "hello").2.2 (by decide)⟩
